import Mathlib

/-
Verification of the Warmy commit-change extraction and focus classification
engine.  Go strings are modelled as lists of characters (`Str`); the helper
functions mirror the string operations used by the Go source
(`strings.Split`, `strings.HasPrefix`, `len`, indexing and slicing).
Regular-expression matching is modelled by opaque boolean predicates on
strings, since the engine only ever asks whether a compiled pattern matches.
Fields of the Go structs that are produced by external collaborators and
never read by the verified algorithms (commit identity, authorship,
timestamps) are omitted from the embedded records.
-/

namespace Warmy

set_option maxRecDepth 8192

/-- Model of a Go string: a list of characters. -/
abbrev Str := List Char

/-- Model of `strings.Split(s, string(sep))` for a one-character separator. -/
def splitOnCh (sep : Char) : Str → List Str
  | [] => [[]]
  | c :: cs =>
    match splitOnCh sep cs with
    | [] => [[]]
    | s :: ss => if c = sep then [] :: s :: ss else (c :: s) :: ss

/-- Model of `strings.Split(s, "\n")`. -/
def splitOnNl (s : Str) : List Str := splitOnCh '\n' s

/-- Model of `strings.HasPrefix`. -/
def hasPre : Str → Str → Bool
  | [], _ => true
  | _ :: _, [] => false
  | p :: ps, c :: cs => if p = c then hasPre ps cs else false

/-- Model of rendering an integer with the `%d` format verb. -/
def natStr (n : Nat) : Str := Nat.toDigits 10 n

/-- Model of `types.LineChange`. -/
structure LineChange where
  type : Str
  content : Str
deriving DecidableEq

/-- Model of `types.ChangeInfo`. -/
structure ChangeInfo where
  Action : Str
  Filepath : Str
  OldPath : Str
  NewPath : Str
  Additions : Nat
  Deletions : Nat
  DiffContent : Str
  Extension : Str
  FileSize : Int
  IsBinary : Bool
  AdditionsList : List LineChange
  DeletionsList : List LineChange
  IsFocus : Bool
  FocusReason : Str
deriving DecidableEq

/-- Zero value of `types.ChangeInfo`, as produced by `types.ChangeInfo{}`. -/
def ChangeInfo.empty : ChangeInfo :=
  { Action := [], Filepath := [], OldPath := [], NewPath := [], Additions := 0,
    Deletions := 0, DiffContent := [], Extension := [], FileSize := 0,
    IsBinary := false, AdditionsList := [], DeletionsList := [],
    IsFocus := false, FocusReason := [] }

/-- Model of `types.FocusFileInfo`. -/
structure FocusFileInfo where
  Filepath : Str
  Action : Str
  Reason : Str
  MatchCount : Nat
  MatchLines : List Str
deriving DecidableEq

/-- Model of `types.StatsInfo`. -/
structure StatsInfo where
  TotalAdditions : Nat
  TotalDeletions : Nat
  TotalFiles : Nat
  AddFiles : Nat
  DeleteFiles : Nat
  ModifyFiles : Nat
  RenameFiles : Nat
  CopyFiles : Nat
  BinaryFiles : Nat
deriving DecidableEq

/-- Zero value of `types.StatsInfo`. -/
def StatsInfo.zero : StatsInfo :=
  { TotalAdditions := 0, TotalDeletions := 0, TotalFiles := 0, AddFiles := 0,
    DeleteFiles := 0, ModifyFiles := 0, RenameFiles := 0, CopyFiles := 0,
    BinaryFiles := 0 }

/-- Model of `types.FocusStats`. -/
structure FocusStats where
  TotalFocusFiles : Nat
  AddFocusFiles : Nat
  ModifyFocusFiles : Nat
  DeleteFocusFiles : Nat
  MatchPatternFiles : Nat
  MatchContentFiles : Nat
deriving DecidableEq

/-- Zero value of `types.FocusStats`. -/
def FocusStats.zero : FocusStats :=
  { TotalFocusFiles := 0, AddFocusFiles := 0, ModifyFocusFiles := 0,
    DeleteFocusFiles := 0, MatchPatternFiles := 0, MatchContentFiles := 0 }

/-- Model of `types.DiffSummary`. -/
structure DiffSummary where
  TotalDiffSize : Nat
  DiffTooLarge : Bool
  MaxDiffSize : Int
  FullDiff : Str
deriving DecidableEq

/-- Zero value of `types.DiffSummary`. -/
def DiffSummary.zero : DiffSummary :=
  { TotalDiffSize := 0, DiffTooLarge := false, MaxDiffSize := 0, FullDiff := [] }

/-- Model of `config.FocusConfig`. -/
structure FocusConfig where
  Enable : Bool
  AddFiles : Bool
  ModifyFiles : Bool
  DeleteFiles : Bool

/-- Model of the fields of `config.Config` read by the engine. -/
structure Config where
  MaxDiffSize : Int
  IncludeFullDiff : Bool
  ParseDiff : Bool
  Focus : FocusConfig

/-- Model of `types.GetFileExtension`. -/
def GetFileExtension (filename : Str) : Str :=
  let parts := splitOnCh '.' filename
  if parts.length > 1 then parts.getLast! else []

/-- Extension table of `types.IsLikelyBinaryFile`. -/
def binaryExtensions : List Str :=
  ["exe".toList, "dll".toList, "so".toList, "dylib".toList,
   "bin".toList, "class".toList, "jar".toList, "war".toList,
   "png".toList, "jpg".toList, "jpeg".toList, "gif".toList,
   "bmp".toList, "ico".toList, "pdf".toList, "doc".toList,
   "docx".toList, "xls".toList, "xlsx".toList, "ppt".toList,
   "pptx".toList, "zip".toList, "tar".toList, "gz".toList,
   "7z".toList, "rar".toList, "mp3".toList, "mp4".toList,
   "avi".toList, "mkv".toList, "mov".toList, "wav".toList,
   "iso".toList, "img".toList, "dmg".toList, "pkg".toList,
   "o".toList, "obj".toList, "lib".toList, "a".toList]

/-- Model of `types.IsLikelyBinaryFile`. -/
def IsLikelyBinaryFile (filename : Str) : Bool :=
  let ext := (GetFileExtension filename).map Char.toLower
  binaryExtensions.contains ext

/-- Model of `types.TruncateString`. -/
def TruncateString (s : Str) (maxLen : Nat) : Str :=
  if s.length ≤ maxLen then s
  else s.take maxLen ++ "\n... [content truncated]".toList

/-- Model of `types.Contains`. -/
def Contains (slice : List Str) (item : Str) : Bool :=
  slice.any (fun s => s = item)

/-- Header prefixes skipped by both parsing modes of `parseDiffContent`. -/
def isHeaderLine (line : Str) : Bool :=
  hasPre "diff --git".toList line ||
  hasPre "index ".toList line ||
  hasPre "--- ".toList line ||
  hasPre "+++ ".toList line ||
  hasPre "new file mode".toList line ||
  hasPre "deleted file mode".toList line ||
  hasPre "rename from".toList line ||
  hasPre "rename to".toList line

/-- Loop of the header-aware mode of `parseDiffContent` (hunk marker present).
The boolean argument is the `inHunk` flag. -/
def parseHunkLoop : List Str → Bool → List LineChange × List LineChange
  | [], _ => ([], [])
  | line :: rest, inHunk =>
    if isHeaderLine line then parseHunkLoop rest inHunk
    else if hasPre "@@".toList line then parseHunkLoop rest true
    else if inHunk && !line.isEmpty then
      match line with
      | [] => parseHunkLoop rest inHunk
      | p :: content =>
        let r := parseHunkLoop rest inHunk
        if p = '+' then
          if hasPre "++ b/".toList content then r
          else (⟨"add".toList, content⟩ :: r.1, r.2)
        else if p = '-' then
          if hasPre "-- a/".toList content then r
          else (r.1, ⟨"delete".toList, content⟩ :: r.2)
        else r
    else parseHunkLoop rest inHunk

/-- Loop of the headerless mode of `parseDiffContent` (no hunk marker).
The boolean argument is the `skipHeader` flag, which starts out false and
becomes true once a header line has been encountered. -/
def parseSimpleLoop : List Str → Bool → List LineChange × List LineChange
  | [], _ => ([], [])
  | line :: rest, skipHeader =>
    if line.isEmpty then parseSimpleLoop rest skipHeader
    else if isHeaderLine line then parseSimpleLoop rest true
    else if skipHeader && !line.isEmpty then
      match line with
      | [] => parseSimpleLoop rest skipHeader
      | p :: content =>
        let r := parseSimpleLoop rest skipHeader
        if p = '+' then
          if hasPre "++ b/".toList content then r
          else (⟨"add".toList, content⟩ :: r.1, r.2)
        else if p = '-' then
          if hasPre "-- a/".toList content then r
          else (r.1, ⟨"delete".toList, content⟩ :: r.2)
        else r
    else parseSimpleLoop rest skipHeader

/-- Model of `git.parseDiffContent`: extracts added and deleted lines from
diff text, returning the pair (additions, deletions). -/
def parseDiffContent (diffContent : Str) : List LineChange × List LineChange :=
  if diffContent = [] then ([], [])
  else
    let lines := splitOnNl diffContent
    if lines.length < 3 then ([], [])
    else if lines.any (fun l => hasPre "@@".toList l) then parseHunkLoop lines false
    else parseSimpleLoop lines false

/-- Model of `go-git` chunk kinds (`diff.Operation`). -/
inductive ChunkType
  | add
  | delete
  | equal
deriving DecidableEq

/-- Model of one `diff.Chunk` of a file patch: its operation and content. -/
structure Chunk where
  type : ChunkType
  content : Str
deriving DecidableEq

/-- Model of one `diff.FilePatch` as consumed by `getCommitChanges`: the two
sides returned by `Files()` (the path of each side when present), the chunk
list, and the size reported by `currentTree.File(filePath)` when that lookup
succeeds. -/
structure FilePatch where
  fromFile : Option Str
  toFile : Option Str
  chunks : List Chunk
  fileSize : Option Int

/-- Line group of one chunk: `strings.Split(content, "\n")` with a trailing
empty string removed, as computed at the top of the chunk loop of
`getCommitChanges`. -/
def chunkLines (content : Str) : List Str :=
  let lines := splitOnNl content
  if lines.getLast? = some [] then lines.dropLast else lines

/-- Text lines emitted for one chunk by the diff-content builder of
`getCommitChanges`: every non-empty line of an Add chunk prefixed with `+`,
every non-empty line of a Delete chunk prefixed with `-`, nothing for an
Equal chunk. -/
def emitChunk (c : Chunk) : List Str :=
  match c.type with
  | ChunkType.add =>
    (chunkLines c.content).filterMap (fun l => if l = [] then none else some ('+' :: l))
  | ChunkType.delete =>
    (chunkLines c.content).filterMap (fun l => if l = [] then none else some ('-' :: l))
  | ChunkType.equal => []

/-- One iteration of the line-counting part of the chunk loop of
`getCommitChanges`. -/
def chunkCountStep (ad : Nat × Nat) (c : Chunk) : Nat × Nat :=
  let lineCount := (chunkLines c.content).length
  match c.type with
  | ChunkType.add => (ad.1 + lineCount, ad.2)
  | ChunkType.delete => (ad.1, ad.2 + lineCount)
  | ChunkType.equal => ad

/-- Addition and deletion line counts accumulated by the chunk loop of
`getCommitChanges`: each Add chunk contributes the length of its line group
to the first component, each Delete chunk to the second. -/
def chunkCounts (chunks : List Chunk) : Nat × Nat :=
  chunks.foldl chunkCountStep (0, 0)

/-- Line groups of the Add chunks of a patch, in order. -/
def addLineGroups (chunks : List Chunk) : List (List Str) :=
  chunks.filterMap
    (fun c =>
      match c.type with
      | ChunkType.add => some (chunkLines c.content)
      | _ => none)

/-- Line groups of the Delete chunks of a patch, in order. -/
def delLineGroups (chunks : List Chunk) : List (List Str) :=
  chunks.filterMap
    (fun c =>
      match c.type with
      | ChunkType.delete => some (chunkLines c.content)
      | _ => none)

/-- Header lines written by the diff-content builder of `getCommitChanges`
for each combination of sides (added, deleted, modified, renamed file).
When both sides are absent the Go code writes no header. -/
def headerLines (fromFile toFile : Option Str) : List Str :=
  match fromFile, toFile with
  | none, some toPath =>
    ["diff --git a/".toList ++ toPath ++ " b/".toList ++ toPath,
     "new file mode 100644".toList,
     "--- /dev/null".toList,
     "+++ b/".toList ++ toPath]
  | some fromPath, none =>
    ["diff --git a/".toList ++ fromPath ++ " b/".toList ++ fromPath,
     "deleted file mode 100644".toList,
     "--- a/".toList ++ fromPath,
     "+++ /dev/null".toList]
  | some fromPath, some toPath =>
    if fromPath = toPath then
      ["diff --git a/".toList ++ fromPath ++ " b/".toList ++ toPath,
       "--- a/".toList ++ fromPath,
       "+++ b/".toList ++ toPath]
    else
      ["diff --git a/".toList ++ fromPath ++ " b/".toList ++ toPath,
       "rename from ".toList ++ fromPath,
       "rename to ".toList ++ toPath]
  | none, none => []

/-- All lines written into `diffContentBuilder` for one file patch, in the
order the Go code writes them: header lines first, then the lines of each
chunk. -/
def synthLines (fp : FilePatch) : List Str :=
  headerLines fp.fromFile fp.toFile ++ (fp.chunks.map emitChunk).flatten

/-- Concatenation of lines, each terminated by a newline, matching a
sequence of `WriteString(line + "\n")` calls on a `strings.Builder`. -/
def joinNl (ls : List Str) : Str := (ls.map (fun l => l ++ ['\n'])).flatten

/-- Diff text synthesized by `getCommitChanges` for one file patch. -/
def synthDiffText (fp : FilePatch) : Str := joinNl (synthLines fp)

/-- Placeholder stored when a single diff exceeds the configured maximum:
`"// Diff content too large (%d bytes), truncated"`. -/
def tooLargeText (diffSize : Nat) : Str :=
  "// Diff content too large (".toList ++ natStr diffSize ++ " bytes), truncated".toList

/-- Accumulator threaded through the per-file loop of the non-root path of
`getCommitChanges`. -/
structure AggState where
  changes : List ChangeInfo
  stats : StatsInfo
  totalDiffSize : Nat
  diffTooLarge : Bool
  fullDiff : Str

/-- Initial accumulator of `getCommitChanges`. -/
def AggState.init : AggState :=
  { changes := [], stats := StatsInfo.zero, totalDiffSize := 0,
    diffTooLarge := false, fullDiff := [] }

/-- Body of the per-file loop of the non-root path of `getCommitChanges`
(one iteration over a `diff.FilePatch`).  It mirrors the Go control flow:
side classification and per-action counters, extension lookup, chunk
counting, diff-text synthesis, parsing, size bookkeeping, and the
truncation check (performed only on the `toFile != nil` branch). -/
def processFilePatch (cfg : Config) (st : AggState) (fp : FilePatch) : AggState :=
  let fromPath := fp.fromFile.getD []
  let toPath := fp.toFile.getD []
  let (change1, stats1) :=
    match fp.fromFile, fp.toFile with
    | none, some _ =>
      ({ ChangeInfo.empty with Action := "add".toList, Filepath := toPath },
       { st.stats with AddFiles := st.stats.AddFiles + 1 })
    | some _, none =>
      ({ ChangeInfo.empty with Action := "delete".toList, Filepath := fromPath },
       { st.stats with DeleteFiles := st.stats.DeleteFiles + 1 })
    | some _, some _ =>
      if fromPath ≠ toPath then
        ({ ChangeInfo.empty with
             Action := "rename".toList, OldPath := fromPath,
             NewPath := toPath, Filepath := toPath },
         { st.stats with RenameFiles := st.stats.RenameFiles + 1 })
      else
        ({ ChangeInfo.empty with Action := "modify".toList, Filepath := fromPath },
         { st.stats with ModifyFiles := st.stats.ModifyFiles + 1 })
    | none, none => (ChangeInfo.empty, st.stats)
  let filePath := change1.Filepath
  let change2 := { change1 with Extension := GetFileExtension filePath }
  let counts := chunkCounts fp.chunks
  let additions := counts.1
  let deletions := counts.2
  let stats2 := { stats1 with
    TotalAdditions := stats1.TotalAdditions + additions,
    TotalDeletions := stats1.TotalDeletions + deletions }
  let change3 := { change2 with Additions := additions, Deletions := deletions }
  let fileDiff := synthDiffText fp
  match fp.toFile with
  | some _ =>
    let change4 :=
      match fp.fileSize with
      | some sz => { change3 with FileSize := sz }
      | none => change3
    let isBin := IsLikelyBinaryFile filePath
    let change5 := { change4 with IsBinary := isBin, DiffContent := fileDiff }
    let (stats3, change6) :=
      if isBin then ({ stats2 with BinaryFiles := stats2.BinaryFiles + 1 }, change5)
      else if cfg.ParseDiff then
        let pr := parseDiffContent fileDiff
        (stats2, { change5 with AdditionsList := pr.1, DeletionsList := pr.2 })
      else (stats2, change5)
    let diffSize := fileDiff.length
    let totalDiffSize := st.totalDiffSize + diffSize
    let (change7, diffTooLarge) :=
      if (diffSize : Int) > cfg.MaxDiffSize then
        ({ change6 with DiffContent := tooLargeText diffSize }, true)
      else (change6, st.diffTooLarge)
    let fullDiff :=
      if cfg.IncludeFullDiff then st.fullDiff ++ fileDiff ++ "\n\n".toList
      else st.fullDiff
    { changes := st.changes ++ [change7], stats := stats3,
      totalDiffSize := totalDiffSize, diffTooLarge := diffTooLarge,
      fullDiff := fullDiff }
  | none =>
    match fp.fromFile with
    | some _ =>
      let isBin := IsLikelyBinaryFile filePath
      let change4 := { change3 with IsBinary := isBin }
      let (stats3, change5) :=
        if isBin then ({ stats2 with BinaryFiles := stats2.BinaryFiles + 1 }, change4)
        else if cfg.ParseDiff then
          (stats2, { change4 with DeletionsList := (parseDiffContent fileDiff).2 })
        else (stats2, change4)
      let change6 := { change5 with DiffContent := fileDiff }
      let diffSize := fileDiff.length
      let totalDiffSize := st.totalDiffSize + diffSize
      let fullDiff :=
        if cfg.IncludeFullDiff then st.fullDiff ++ fileDiff ++ "\n\n".toList
        else st.fullDiff
      { changes := st.changes ++ [change6], stats := stats3,
        totalDiffSize := totalDiffSize, diffTooLarge := st.diffTooLarge,
        fullDiff := fullDiff }
    | none =>
      { st with changes := st.changes ++ [change3] }

/-- Non-root path of `getCommitChanges`: fold the per-file loop over the
patch list, then set `TotalFiles`, the diff summary and the optional full
diff, exactly as the Go code does after the loop. -/
def getCommitChangesNonRoot (cfg : Config) (patches : List FilePatch) :
    List ChangeInfo × StatsInfo × DiffSummary :=
  let st := patches.foldl (processFilePatch cfg) AggState.init
  let stats := { st.stats with TotalFiles := st.changes.length }
  let diffSummary : DiffSummary :=
    { TotalDiffSize := st.totalDiffSize, DiffTooLarge := st.diffTooLarge,
      MaxDiffSize := cfg.MaxDiffSize,
      FullDiff := if cfg.IncludeFullDiff then st.fullDiff else [] }
  (st.changes, stats, diffSummary)

/-- Model of one tracked file of the tree of a root commit: name, size and
the outcome of `f.Contents()` (the error side carries the error text). -/
structure RootFile where
  name : Str
  size : Int
  contentR : Except Str Str

/-- Accumulator of the root-commit loop of `getCommitChanges`. -/
structure RootAggState where
  changes : List ChangeInfo
  stats : StatsInfo
  totalDiffSize : Nat
  diffTooLarge : Bool

/-- Body of the root-commit per-file loop of `getCommitChanges`.  Note the
order of the Go code: the change record is appended to the list first; the
later oversize check assigns the truncation placeholder to the local copy
of the record (which is never read again) and sets the oversize flag. -/
def rootFileStep (cfg : Config) (st : RootAggState) (f : RootFile) : RootAggState :=
  let content := match f.contentR with | Except.ok c => c | Except.error _ => []
  let diffContent :=
    match f.contentR with
    | Except.error e => "// Unable to read file content: ".toList ++ e ++ ['\n']
    | Except.ok c =>
      "+++ b/".toList ++ f.name ++ ['\n'] ++
      "@@ -0,0 +1,".toList ++ natStr (splitOnNl c).length ++ " @@".toList ++ ['\n'] ++ c
  let stats1 :=
    match f.contentR with
    | Except.error _ => { st.stats with BinaryFiles := st.stats.BinaryFiles + 1 }
    | Except.ok _ => st.stats
  let isBinary := match f.contentR with | Except.error _ => true | Except.ok _ => false
  let change : ChangeInfo :=
    { ChangeInfo.empty with
      Action := "add".toList, Filepath := f.name,
      Additions := (splitOnNl content).length, Deletions := 0,
      DiffContent := diffContent, Extension := GetFileExtension f.name,
      FileSize := f.size, IsBinary := isBinary }
  let change :=
    if cfg.ParseDiff && !change.IsBinary then
      { change with AdditionsList := (parseDiffContent diffContent).1 }
    else change
  let changes := st.changes ++ [change]
  let stats2 := { stats1 with AddFiles := stats1.AddFiles + 1 }
  let diffSize := diffContent.length
  let totalDiffSize := st.totalDiffSize + diffSize
  -- The Go code now runs `change.DiffContent = fmt.Sprintf(...)` when
  -- `diffSize > cfg.MaxDiffSize`; `change` was already copied into the
  -- slice by `append`, so only the oversize flag survives this branch.
  let diffTooLarge :=
    if (diffSize : Int) > cfg.MaxDiffSize then true else st.diffTooLarge
  { changes := changes, stats := stats2, totalDiffSize := totalDiffSize,
    diffTooLarge := diffTooLarge }

/-- Root-commit path of `getCommitChanges`: every tracked file is treated
as wholly added. -/
def getCommitChangesRoot (cfg : Config) (files : List RootFile) :
    List ChangeInfo × StatsInfo × DiffSummary :=
  let st := files.foldl (rootFileStep cfg)
    { changes := [], stats := StatsInfo.zero, totalDiffSize := 0, diffTooLarge := false }
  let stats := { st.stats with TotalFiles := st.changes.length }
  let diffSummary : DiffSummary :=
    { TotalDiffSize := st.totalDiffSize, DiffTooLarge := st.diffTooLarge,
      MaxDiffSize := cfg.MaxDiffSize, FullDiff := [] }
  (st.changes, stats, diffSummary)

/-- Model of `focus.CompiledPatterns`: compiled regular expressions are
modelled by their matching predicates (`MatchString`). -/
structure CompiledPatterns where
  FilePatterns : List (Str → Bool)
  IgnorePatterns : List (Str → Bool)

/-- Model of `focus.isIgnoredByFilePatterns`. -/
def isIgnoredByFilePatterns (filepath : Str) (patterns : List (Str → Bool)) : Bool :=
  patterns.any (fun p => p filepath)

/-- Model of `focus.isLineIgnored`. -/
def isLineIgnored (content : Str) (patterns : List (Str → Bool)) : Bool :=
  patterns.any (fun p => p content)

/-- Body of one iteration of the content-checking loops in the modify
branch of `CheckFocusChange`: a line that matches no ignore pattern bumps
the match counter, and its 100-character summary is appended when non-empty
and not already collected.  The state is (matchedLines, matchCount). -/
def accumStep (ignorePatterns : List (Str → Bool)) (st : List Str × Nat)
    (line : LineChange) : List Str × Nat :=
  if !isLineIgnored line.content ignorePatterns then
    let matchCount := st.2 + 1
    let lineSummary := TruncateString line.content 100
    if lineSummary.length > 0 && !Contains st.1 lineSummary then
      (st.1 ++ [lineSummary], matchCount)
    else (st.1, matchCount)
  else st

/-- One content-checking loop of the modify branch of `CheckFocusChange`:
fold `accumStep` over a line list. -/
def accumMatches (ignorePatterns : List (Str → Bool)) (changeLines : List LineChange)
    (st : List Str × Nat) : List Str × Nat :=
  changeLines.foldl (accumStep ignorePatterns) st

/-- Model of `focus.CheckFocusChange`.  The Go function mutates the change
record through its pointer argument; here it returns the possibly updated
record alongside the focus decision. -/
def CheckFocusChange (cfg : Config) (cp : CompiledPatterns) (change : ChangeInfo) :
    Option FocusFileInfo × ChangeInfo :=
  if !cfg.Focus.Enable then (none, change)
  else if isIgnoredByFilePatterns change.Filepath cp.IgnorePatterns then (none, change)
  else
    let isTargetFile := cp.FilePatterns.any (fun p => p change.Filepath)
    if !isTargetFile then (none, change)
    else
      let focusFile : FocusFileInfo :=
        { Filepath := change.Filepath, Action := change.Action, Reason := [],
          MatchCount := 0, MatchLines := [] }
      if cfg.Focus.AddFiles && change.Action = "add".toList then
        (some { focusFile with Reason := "New file".toList },
         { change with IsFocus := true, FocusReason := "New file".toList })
      else if cfg.Focus.DeleteFiles && change.Action = "delete".toList then
        (some { focusFile with Reason := "Deleted file".toList },
         { change with IsFocus := true, FocusReason := "Deleted file".toList })
      else if cfg.Focus.ModifyFiles && change.Action = "modify".toList then
        let afterAdds := accumMatches cp.IgnorePatterns change.AdditionsList ([], 0)
        let afterDels := accumMatches cp.IgnorePatterns change.DeletionsList afterAdds
        let matchedLines := afterDels.1
        let matchCount := afterDels.2
        if matchCount > 0 then
          let reason :=
            "Content doesn\x27t match ignore patterns, match count: ".toList ++
            natStr matchCount
          (some { focusFile with
                    Reason := reason, MatchCount := matchCount,
                    MatchLines := matchedLines },
           { change with IsFocus := true, FocusReason := reason })
        else (none, change)
      else (none, change)

/-- Model of `types.CommitInfo`, restricted to the fields computed by the
verified engine (identity, authorship, message and timestamp fields are
copied from external collaborators and are omitted). -/
structure CommitInfo where
  Changes : List ChangeInfo
  FocusFiles : List FocusFileInfo
  FilesChanged : List Str
  Stats : StatsInfo
  DiffSummary : DiffSummary
  Branches : List Str
  Tags : List Str
  FocusStats : FocusStats
deriving DecidableEq

/-- Body of the focus-statistics loop of `GetCommit` (one iteration over a
change record).  The state is (filesChanged, focusFiles, focusStats,
changes processed so far, with focus flags applied in place). -/
def focusStep (cfg : Config) (cp : CompiledPatterns)
    (st : List Str × List FocusFileInfo × FocusStats × List ChangeInfo)
    (change : ChangeInfo) :
    List Str × List FocusFileInfo × FocusStats × List ChangeInfo :=
  let filesChanged := st.1 ++ [change.Filepath]
  match CheckFocusChange cfg cp change with
  | (some focusFile, change2) =>
    let fs := st.2.2.1
    let fs := { fs with TotalFocusFiles := fs.TotalFocusFiles + 1 }
    let fs :=
      if change2.Action = "add".toList then
        { fs with
            AddFocusFiles := fs.AddFocusFiles + 1,
            MatchPatternFiles := fs.MatchPatternFiles + 1 }
      else if change2.Action = "modify".toList then
        { fs with
            ModifyFocusFiles := fs.ModifyFocusFiles + 1,
            MatchContentFiles := fs.MatchContentFiles + 1 }
      else if change2.Action = "delete".toList then
        -- Note: the Go code increments only MatchPatternFiles here; the
        -- DeleteFocusFiles counter is never touched anywhere in the program.
        { fs with MatchPatternFiles := fs.MatchPatternFiles + 1 }
      else fs
    (filesChanged, st.2.1 ++ [focusFile], fs, st.2.2.2 ++ [change2])
  | (none, change2) => (filesChanged, st.2.1, st.2.2.1, st.2.2.2 ++ [change2])

/-- Tail of `git.GetCommit`, from the branch/tag lookups onward.  External
lookups are passed in as `Except` results: branch and tag membership, the
tree object retrieval (fatal on failure), the outcome of
`getCommitChanges`, and of `focus.Init` (whose compiled patterns the loop
uses).  Failed branch/tag lookups degrade to empty lists, a failed change
computation degrades to empty changes and zero statistics, and a failed
focus initialization skips the focus loop, exactly as the Go code does. -/
def GetCommitTail (cfg : Config)
    (branchesR : Except Unit (List Str)) (tagsR : Except Unit (List Str))
    (treeR : Except Unit Unit)
    (changesR : Except Unit (List ChangeInfo × StatsInfo × DiffSummary))
    (initR : Except Unit CompiledPatterns) : Except Unit CommitInfo :=
  let branches := match branchesR with | Except.ok bs => bs | Except.error _ => []
  let tags := match tagsR with | Except.ok ts => ts | Except.error _ => []
  match treeR with
  | Except.error _ => Except.error ()
  | Except.ok _ =>
    let (changes, stats, diffSummary) :=
      match changesR with
      | Except.ok r => r
      | Except.error _ => ([], StatsInfo.zero, DiffSummary.zero)
    let (filesChanged, focusFiles, focusStats, changes2) :=
      match initR with
      | Except.error _ => ([], [], FocusStats.zero, changes)
      | Except.ok cp => changes.foldl (focusStep cfg cp) ([], [], FocusStats.zero, [])
    Except.ok
      { Changes := changes2, FocusFiles := focusFiles,
        FilesChanged := filesChanged, Stats := stats,
        DiffSummary := diffSummary, Branches := branches, Tags := tags,
        FocusStats := focusStats }

/-! Shared configurations and inputs used by the claim theorems below. -/

/-- Configuration mirroring the Go defaults (1 MiB diff budget, diff
parsing on, all focus kinds enabled). -/
def cfgDefault : Config :=
  { MaxDiffSize := 1048576, IncludeFullDiff := false, ParseDiff := true,
    Focus := ⟨true, true, true, true⟩ }

/-- Configuration with a 1-byte diff budget, to trigger the oversize path. -/
def cfgTiny : Config :=
  { MaxDiffSize := 1, IncludeFullDiff := false, ParseDiff := true,
    Focus := ⟨true, true, true, true⟩ }

/-! Basic lemmas about the string model. -/

theorem splitOnCh_ne_nil (sep : Char) (s : Str) : splitOnCh sep s ≠ [] := by
  induction s with
  | nil => simp [splitOnCh]
  | cons c cs ih =>
    simp only [splitOnCh]
    cases h : splitOnCh sep cs with
    | nil => exact absurd h ih
    | cons a as => by_cases hc : c = sep <;> simp [hc]

theorem not_mem_of_mem_splitOnCh (sep : Char) (s : Str) :
    ∀ l ∈ splitOnCh sep s, sep ∉ l := by
  induction s with
  | nil =>
    intro l hl
    have he : l = [] := by simpa [splitOnCh] using hl
    simp [he]
  | cons c cs ih =>
    intro l hl
    simp only [splitOnCh] at hl
    cases h : splitOnCh sep cs with
    | nil => exact absurd h (splitOnCh_ne_nil sep cs)
    | cons a as =>
      simp only [h] at hl
      have iha : sep ∉ a := ih a (by rw [h]; exact List.mem_cons_self a as)
      have ihas : ∀ x ∈ as, sep ∉ x := fun x hx =>
        ih x (by rw [h]; exact List.mem_cons_of_mem a hx)
      by_cases hc : c = sep
      · rw [if_pos hc] at hl
        rcases List.mem_cons.mp hl with h1 | h1
        · simp [h1]
        · rcases List.mem_cons.mp h1 with h2 | h2
          · rw [h2]; exact iha
          · exact ihas l h2
      · rw [if_neg hc] at hl
        rcases List.mem_cons.mp hl with h1 | h1
        · rw [h1]
          intro hm
          rcases List.mem_cons.mp hm with h2 | h2
          · exact hc h2.symm
          · exact iha h2
        · exact ihas l h1

theorem splitOnCh_sandwich (sep : Char) (l s : Str) (h : sep ∉ l) :
    splitOnCh sep (l ++ sep :: s) = l :: splitOnCh sep s := by
  induction l with
  | nil =>
    simp only [List.nil_append, splitOnCh]
    cases hs : splitOnCh sep s with
    | nil => exact absurd hs (splitOnCh_ne_nil sep s)
    | cons a as => simp
  | cons c cl ih =>
    have hc : c ≠ sep := fun e => h (by simp [e])
    have h2 : sep ∉ cl := fun m => h (List.mem_cons_of_mem _ m)
    rw [List.cons_append]
    simp only [splitOnCh]
    rw [ih h2]
    simp [hc]

theorem splitOnNl_joinNl (ls : List Str) (h : ∀ l ∈ ls, '\n' ∉ l) :
    splitOnNl (joinNl ls) = ls ++ [[]] := by
  induction ls with
  | nil => simp [joinNl, splitOnNl, splitOnCh]
  | cons l ls ih =>
    have h1 : '\n' ∉ l := h l (List.mem_cons_self l ls)
    have h2 : ∀ x ∈ ls, '\n' ∉ x := fun x hx => h x (List.mem_cons_of_mem _ hx)
    have hj : joinNl (l :: ls) = l ++ '\n' :: joinNl ls := by
      simp [joinNl, List.append_assoc]
    rw [splitOnNl, hj, splitOnCh_sandwich _ _ _ h1, ← splitOnNl, ih h2]
    rfl

theorem hasPre_refl (p : Str) : hasPre p p = true := by
  induction p with
  | nil => rfl
  | cons a ps ih => simp [hasPre, ih]

theorem hasPre_of_left (p q t : Str) (h : hasPre p q = true) :
    hasPre p (q ++ t) = true := by
  induction p generalizing q with
  | nil => simp [hasPre]
  | cons a ps ih =>
    cases q with
    | nil => simp [hasPre] at h
    | cons c cs =>
      simp only [hasPre, List.cons_append] at h ⊢
      by_cases hac : a = c
      · simp only [if_pos hac] at h ⊢
        exact ih cs h
      · simp [if_neg hac] at h

theorem hasPre_split (p q s : Str) (h : hasPre (p ++ q) s = true) :
    hasPre p s = true := by
  induction p generalizing s with
  | nil => simp [hasPre]
  | cons a ps ih =>
    cases s with
    | nil => simp [hasPre] at h
    | cons c cs =>
      simp only [List.cons_append, hasPre] at h ⊢
      by_cases hac : a = c
      · simp only [if_pos hac] at h ⊢
        exact ih cs h
      · simp [if_neg hac] at h

/-- C10: every input that splits into fewer than three newline-separated
lines (the empty string included) yields empty addition and deletion lists
from `parseDiffContent`, whatever those lines start with. -/
theorem c10_short_input_empty (s : Str) (h : (splitOnNl s).length < 3) :
    parseDiffContent s = ([], []) := by
  by_cases hs : s = []
  · simp [parseDiffContent, hs]
  · simp [parseDiffContent, hs, h]

/-- Witness for C10 at the two-line input `"+a\n-b"`. -/
theorem c10_short_input_empty_witness :
    (splitOnNl "+a\n-b".toList).length < 3 ∧
    parseDiffContent "+a\n-b".toList = ([], []) :=
  ⟨by decide, c10_short_input_empty "+a\n-b".toList (by decide)⟩

/-- C6: a change whose path matches an ignore pattern is never focus,
whatever its action, content or enabled focus flags. -/
theorem c6_ignore_precedence (cfg : Config) (cp : CompiledPatterns)
    (change : ChangeInfo)
    (h : isIgnoredByFilePatterns change.Filepath cp.IgnorePatterns = true) :
    (CheckFocusChange cfg cp change).1 = none := by
  cases he : cfg.Focus.Enable <;> simp [CheckFocusChange, he, h]

/-- Change record used by the C6 witness. -/
def c6Change : ChangeInfo :=
  { ChangeInfo.empty with
      Action := "add".toList, Filepath := "secrets.yaml".toList }

/-- Patterns used by the C6 witness: everything is a target file, paths
starting with `secrets` are ignored. -/
def c6Patterns : CompiledPatterns :=
  { FilePatterns := [fun _ => true],
    IgnorePatterns := [fun s => hasPre "secrets".toList s] }

/-- Witness for C6 at an added file whose path matches the ignore pattern
while every other rule would select it. -/
theorem c6_ignore_precedence_witness :
    isIgnoredByFilePatterns c6Change.Filepath c6Patterns.IgnorePatterns = true ∧
    (CheckFocusChange cfgDefault c6Patterns c6Change).1 = none :=
  ⟨by decide, c6_ignore_precedence cfgDefault c6Patterns c6Change (by decide)⟩

/-- Root file used by Scenario A: a three-line text file `a.txt`. -/
def c8File : RootFile :=
  { name := "a.txt".toList, size := 6, contentR := Except.ok "l1\nl2\nl3".toList }

/-- C8: Scenario A, an initial commit with a single three-line file, yields
one `add` change with three additions, no deletions, and statistics
`AddFiles = 1`, `TotalFiles = 1`. -/
theorem c8_initial_commit_scenario :
    (getCommitChangesRoot cfgDefault [c8File]).1.map
        (fun c => (c.Action, c.Filepath, c.Additions, c.Deletions)) =
      [("add".toList, "a.txt".toList, 3, 0)] ∧
    (getCommitChangesRoot cfgDefault [c8File]).2.1.AddFiles = 1 ∧
    (getCommitChangesRoot cfgDefault [c8File]).2.1.TotalFiles = 1 := by
  decide

/-- Root file used by the C3 failing input. -/
def c3File : RootFile :=
  { name := "a.txt".toList, size := 3, contentR := Except.ok "abc".toList }

/-- Diff text synthesized for `c3File` on the root-commit path. -/
def c3Diff : Str := "+++ b/a.txt\n@@ -0,0 +1,1 @@\nabc".toList

/-- C3 (code bug, root-commit path): with a 1-byte diff budget the synthesized
diff (30 bytes) exceeds the maximum, the oversize flag is set, and the
addition count is unaffected, but the change stored in the final list still
carries the full diff text rather than the truncation placeholder, because
the Go code assigns the placeholder to a local copy after the record was
already appended. -/
theorem c3_truncation_root_eval :
    (getCommitChangesRoot cfgTiny [c3File]).2.2.DiffTooLarge = true ∧
    (getCommitChangesRoot cfgTiny [c3File]).1.map (fun c => c.DiffContent) = [c3Diff] ∧
    (getCommitChangesRoot cfgTiny [c3File]).1.map (fun c => c.Additions) = [1] ∧
    hasPre "// Diff content too large".toList c3Diff = false ∧
    (c3Diff.length : Int) > cfgTiny.MaxDiffSize := by
  decide

/-- Change record used by the C2 failing input: a deleted focus file. -/
def c2Change : ChangeInfo :=
  { ChangeInfo.empty with
      Action := "delete".toList, Filepath := "old.yaml".toList }

/-- Patterns used by the C2 failing input: every path is a target. -/
def c2Patterns : CompiledPatterns :=
  { FilePatterns := [fun _ => true], IgnorePatterns := [] }

/-- C2 (code bug): after processing a commit whose only change is a deleted
focus file, `TotalFocusFiles` is 1 while `AddFocusFiles + ModifyFocusFiles +
DeleteFocusFiles` is 0, because the delete branch of the statistics block in
`GetCommit` never increments `DeleteFocusFiles` (no code path does). -/
theorem c2_focus_total_bug_eval :
    (GetCommitTail cfgDefault (Except.ok []) (Except.ok []) (Except.ok ())
        (Except.ok ([c2Change], StatsInfo.zero, DiffSummary.zero))
        (Except.ok c2Patterns)).toOption.map
      (fun ci => (ci.FocusStats.TotalFocusFiles,
        ci.FocusStats.AddFocusFiles + ci.FocusStats.ModifyFocusFiles +
          ci.FocusStats.DeleteFocusFiles)) = some (1, 0) := by
  decide

/-- C9: with the tree retrieval succeeding, `GetCommit` still returns a
successful result when the branch lookup, the tag lookup or the change
computation fails; the failed branch/tag lookup yields an empty list for
that field, and a failed change computation yields an empty change list and
zero-valued statistics and diff summary. -/
theorem c9_partial_failure (cfg : Config)
    (branchesR tagsR : Except Unit (List Str))
    (changesR : Except Unit (List ChangeInfo × StatsInfo × DiffSummary))
    (initR : Except Unit CompiledPatterns)
    (treeR : Except Unit Unit) (htree : treeR = Except.ok ()) :
    ∃ ci, GetCommitTail cfg branchesR tagsR treeR changesR initR = Except.ok ci ∧
      (∀ e, branchesR = Except.error e → ci.Branches = []) ∧
      (∀ e, tagsR = Except.error e → ci.Tags = []) ∧
      (∀ e, changesR = Except.error e →
        ci.Changes = [] ∧ ci.Stats = StatsInfo.zero ∧
          ci.DiffSummary = DiffSummary.zero) := by
  subst htree
  refine ⟨_, rfl, ?_, ?_, ?_⟩
  · intro e he
    cases branchesR with
    | ok bs => cases he
    | error u => simp [GetCommitTail]
  · intro e he
    cases tagsR with
    | ok ts => cases he
    | error u => simp [GetCommitTail]
  · intro e he
    cases changesR with
    | ok r => cases he
    | error u => cases initR <;> simp [GetCommitTail]

/-- Witness for C9 with every degradable lookup failing. -/
theorem c9_partial_failure_witness :
    (Except.ok () : Except Unit Unit) = Except.ok () ∧
    ∃ ci, GetCommitTail cfgDefault (Except.error ()) (Except.error ())
        (Except.ok ()) (Except.error ()) (Except.error ()) = Except.ok ci ∧
      (∀ e, (Except.error () : Except Unit (List Str)) = Except.error e →
        ci.Branches = []) ∧
      (∀ e, (Except.error () : Except Unit (List Str)) = Except.error e →
        ci.Tags = []) ∧
      (∀ e, (Except.error () :
          Except Unit (List ChangeInfo × StatsInfo × DiffSummary)) =
            Except.error e →
        ci.Changes = [] ∧ ci.Stats = StatsInfo.zero ∧
          ci.DiffSummary = DiffSummary.zero) :=
  ⟨rfl, c9_partial_failure cfgDefault (Except.error ()) (Except.error ())
    (Except.error ()) (Except.error ()) (Except.ok ()) rfl⟩

/-! Lemmas for claim C4. -/

theorem TruncateString_length_le (s : Str) : (TruncateString s 100).length ≤ 124 := by
  by_cases h : s.length ≤ 100
  · simp only [TruncateString, if_pos h]
    omega
  · simp only [TruncateString, if_neg h]
    have hm : ("\n... [content truncated]".toList).length = 24 := by decide
    simp [List.length_append, List.length_take, hm]

theorem Contains_iff (slice : List Str) (item : Str) :
    Contains slice item = true ↔ item ∈ slice := by
  simp [Contains, List.any_eq_true]

theorem accumStep_inv (ps : List (Str → Bool)) (st : List Str × Nat)
    (line : LineChange)
    (h1 : ∀ l ∈ st.1, l.length ≤ 124) (h2 : st.1.Nodup) :
    (∀ l ∈ (accumStep ps st line).1, l.length ≤ 124) ∧
      (accumStep ps st line).1.Nodup := by
  unfold accumStep
  cases hig : isLineIgnored line.content ps
  · cases hcond : (TruncateString line.content 100).length > 0 &&
        !Contains st.1 (TruncateString line.content 100)
    · simp only [hcond, Bool.not_false, Bool.false_eq_true, if_false, if_true]
      exact ⟨h1, h2⟩
    · simp only [hcond, Bool.not_false, if_true]
      have hnc : Contains st.1 (TruncateString line.content 100) = false := by
        rcases Bool.and_eq_true .. |>.mp hcond with ⟨-, hb⟩
        simpa using hb
      have hnm : TruncateString line.content 100 ∉ st.1 := fun hm =>
        by simp [(Contains_iff _ _).mpr hm] at hnc
      constructor
      · intro l hl
        rcases List.mem_append.mp hl with hl | hl
        · exact h1 l hl
        · rw [List.mem_singleton.mp hl]
          exact TruncateString_length_le line.content
      · simp [List.nodup_append, h2, List.disjoint_singleton, hnm]
  · simp only [hig, Bool.not_true, Bool.false_eq_true, if_false]
    exact ⟨h1, h2⟩

theorem accumMatches_inv (ps : List (Str → Bool)) (ls : List LineChange) :
    ∀ st : List Str × Nat,
      (∀ l ∈ st.1, l.length ≤ 124) → st.1.Nodup →
      (∀ l ∈ (accumMatches ps ls st).1, l.length ≤ 124) ∧
        (accumMatches ps ls st).1.Nodup := by
  induction ls with
  | nil => intro st h1 h2; exact ⟨h1, h2⟩
  | cons x xs ih =>
    intro st h1 h2
    have hstep := accumStep_inv ps st x h1 h2
    have hrest := ih (accumStep ps st x) hstep.1 hstep.2
    simp only [accumMatches] at hrest ⊢
    rw [List.foldl_cons]
    exact hrest

theorem CheckFocusChange_matchlines (cfg : Config) (cp : CompiledPatterns)
    (change : ChangeInfo) :
    (CheckFocusChange cfg cp change).1.elim True
      (fun ff => (∀ l ∈ ff.MatchLines, l.length ≤ 124) ∧ ff.MatchLines.Nodup) := by
  have base := accumMatches_inv cp.IgnorePatterns change.AdditionsList
    ([], 0) (by simp) (by simp)
  have full := accumMatches_inv cp.IgnorePatterns change.DeletionsList
    (accumMatches cp.IgnorePatterns change.AdditionsList ([], 0))
    base.1 base.2
  simp only [CheckFocusChange]
  split_ifs <;> simp
  all_goals exact full

/-- C4 (amended): every string appended to a focus file match-summary list
by the modify branch of `CheckFocusChange` has length at most 124 (the
100-character truncation point plus the 24-character truncation marker),
and the list contains no duplicate entries. -/
theorem c4_matchlines_amended (cfg : Config) (cp : CompiledPatterns)
    (change : ChangeInfo) (ff : FocusFileInfo) (change2 : ChangeInfo)
    (h : CheckFocusChange cfg cp change = (some ff, change2)) :
    (∀ l ∈ ff.MatchLines, l.length ≤ 124) ∧ ff.MatchLines.Nodup := by
  have hm := CheckFocusChange_matchlines cfg cp change
  rw [h] at hm
  simpa using hm

/-- Patterns used by the C4 counterexample and witness. -/
def c4Patterns : CompiledPatterns :=
  { FilePatterns := [fun _ => true], IgnorePatterns := [] }

/-- Change used by the C4 counterexample: a modification whose only added
line is 101 characters long. -/
def c4Change : ChangeInfo :=
  { ChangeInfo.empty with
      Action := "modify".toList, Filepath := "config.yaml".toList,
      AdditionsList := [⟨"add".toList, List.replicate 101 'a'⟩] }

/-- Counterexample for C4 as stated: the summary stored for a 101-character
line is 124 characters long, exceeding the claimed 100-character bound. -/
theorem c4_matchlines_cex :
    (CheckFocusChange cfgDefault c4Patterns c4Change).1.map
        (fun ff => ff.MatchLines.map List.length) = some [124] ∧
    ¬(124 ≤ 100) := by
  decide

/-- Change used by the C4 witness. -/
def c4wChange : ChangeInfo :=
  { ChangeInfo.empty with
      Action := "modify".toList, Filepath := "config.yaml".toList,
      AdditionsList := [⟨"add".toList, "severity: high".toList⟩] }

/-- Focus record produced for `c4wChange`. -/
def c4wFF : FocusFileInfo :=
  { Filepath := "config.yaml".toList, Action := "modify".toList,
    Reason := "Content doesn\x27t match ignore patterns, match count: 1".toList,
    MatchCount := 1, MatchLines := ["severity: high".toList] }

/-- Updated change record produced for `c4wChange`. -/
def c4wChange2 : ChangeInfo :=
  { c4wChange with
      IsFocus := true,
      FocusReason :=
        "Content doesn\x27t match ignore patterns, match count: 1".toList }

/-- Witness for the amended C4 at a concrete modify-focus change. -/
theorem c4_matchlines_amended_witness :
    CheckFocusChange cfgDefault c4Patterns c4wChange = (some c4wFF, c4wChange2) ∧
    ((∀ l ∈ c4wFF.MatchLines, l.length ≤ 124) ∧ c4wFF.MatchLines.Nodup) :=
  ⟨by decide,
   c4_matchlines_amended cfgDefault c4Patterns c4wChange c4wFF c4wChange2 (by decide)⟩

/-! Lemmas for claim C5. -/

/-- Sum of the per-action file counters of `StatsInfo`. -/
def actionSum (s : StatsInfo) : Nat :=
  s.AddFiles + s.DeleteFiles + s.ModifyFiles + s.RenameFiles + s.CopyFiles

theorem processFilePatch_length (cfg : Config) (st : AggState) (fp : FilePatch) :
    (processFilePatch cfg st fp).changes.length = st.changes.length + 1 := by
  obtain ⟨ff, tf, cks, fsz⟩ := fp
  cases ff <;> cases tf <;> cases fsz <;> simp only [processFilePatch] <;>
    first
      | (split_ifs <;> simp)
      | simp

theorem processFilePatch_actionSum (cfg : Config) (st : AggState) (fp : FilePatch)
    (h : ¬(fp.fromFile = none ∧ fp.toFile = none)) :
    actionSum (processFilePatch cfg st fp).stats = actionSum st.stats + 1 := by
  obtain ⟨ff, tf, cks, fsz⟩ := fp
  cases ff <;> cases tf
  · exact absurd ⟨rfl, rfl⟩ h
  all_goals
    cases fsz <;> simp only [processFilePatch, actionSum] <;> split_ifs <;>
      simp <;> omega

theorem foldl_processFilePatch_length (cfg : Config) (patches : List FilePatch) :
    ∀ st : AggState,
      (patches.foldl (processFilePatch cfg) st).changes.length =
        st.changes.length + patches.length := by
  induction patches with
  | nil => intro st; simp
  | cons p ps ih =>
    intro st
    rw [List.foldl_cons, ih, processFilePatch_length]
    simp only [List.length_cons]
    omega

theorem foldl_processFilePatch_actionSum (cfg : Config) :
    ∀ patches : List FilePatch,
      (∀ fp ∈ patches, ¬(fp.fromFile = none ∧ fp.toFile = none)) →
      ∀ st : AggState,
        actionSum ((patches.foldl (processFilePatch cfg) st).stats) =
          actionSum st.stats + patches.length := by
  intro patches
  induction patches with
  | nil => intro _ st; simp
  | cons p ps ih =>
    intro h st
    have hp := h p (List.mem_cons_self p ps)
    have hps := fun fp hfp => h fp (List.mem_cons_of_mem p hfp)
    rw [List.foldl_cons, ih hps, processFilePatch_actionSum cfg st p hp]
    simp only [List.length_cons]
    omega

/-- C5: for a commit with N file changes, the non-root path of
`getCommitChanges` reports `TotalFiles = N`, and the per-action counters
`AddFiles + DeleteFiles + ModifyFiles + RenameFiles + CopyFiles` also sum
to N (every `go-git` file patch has at least one side present). -/
theorem c5_stats_additivity (cfg : Config) (patches : List FilePatch)
    (h : ∀ fp ∈ patches, ¬(fp.fromFile = none ∧ fp.toFile = none)) :
    (getCommitChangesNonRoot cfg patches).2.1.TotalFiles = patches.length ∧
    (getCommitChangesNonRoot cfg patches).2.1.AddFiles +
      (getCommitChangesNonRoot cfg patches).2.1.DeleteFiles +
      (getCommitChangesNonRoot cfg patches).2.1.ModifyFiles +
      (getCommitChangesNonRoot cfg patches).2.1.RenameFiles +
      (getCommitChangesNonRoot cfg patches).2.1.CopyFiles = patches.length := by
  constructor
  · simp only [getCommitChangesNonRoot]
    rw [foldl_processFilePatch_length]
    simp [AggState.init]
  · have hsum := foldl_processFilePatch_actionSum cfg patches h AggState.init
    simp only [actionSum, AggState.init, StatsInfo.zero] at hsum
    simpa [getCommitChangesNonRoot] using hsum

/-- File patches used by the C5 witness: one of each action kind. -/
def c5Patches : List FilePatch :=
  [{ fromFile := none, toFile := some "new.txt".toList, chunks := [], fileSize := some 1 },
   { fromFile := some "gone.txt".toList, toFile := none, chunks := [], fileSize := none },
   { fromFile := some "mod.txt".toList, toFile := some "mod.txt".toList,
     chunks := [⟨ChunkType.add, "x".toList⟩], fileSize := some 2 },
   { fromFile := some "old.txt".toList, toFile := some "moved.txt".toList,
     chunks := [], fileSize := some 3 }]

/-- Witness for C5 on a four-patch commit with one patch per action kind. -/
theorem c5_stats_additivity_witness :
    (∀ fp ∈ c5Patches, ¬(fp.fromFile = none ∧ fp.toFile = none)) ∧
    ((getCommitChangesNonRoot cfgDefault c5Patches).2.1.TotalFiles =
        c5Patches.length ∧
      (getCommitChangesNonRoot cfgDefault c5Patches).2.1.AddFiles +
        (getCommitChangesNonRoot cfgDefault c5Patches).2.1.DeleteFiles +
        (getCommitChangesNonRoot cfgDefault c5Patches).2.1.ModifyFiles +
        (getCommitChangesNonRoot cfgDefault c5Patches).2.1.RenameFiles +
        (getCommitChangesNonRoot cfgDefault c5Patches).2.1.CopyFiles =
          c5Patches.length) :=
  ⟨by decide, c5_stats_additivity cfgDefault c5Patches (by decide)⟩

/-! Lemmas about the headerless parsing loop, for claims C1 and C7. -/

theorem psl_empty_line (rest : List Str) (sk : Bool) :
    parseSimpleLoop ([] :: rest) sk = parseSimpleLoop rest sk := by
  simp [parseSimpleLoop]

theorem psl_header_line (l : Str) (rest : List Str) (sk : Bool)
    (h1 : isHeaderLine l = true) (h2 : l.isEmpty = false) :
    parseSimpleLoop (l :: rest) sk = parseSimpleLoop rest true := by
  simp [parseSimpleLoop, h1, h2]

theorem psl_other_false (l : Str) (rest : List Str)
    (h1 : isHeaderLine l = false) :
    parseSimpleLoop (l :: rest) false = parseSimpleLoop rest false := by
  cases l with
  | nil => simp [parseSimpleLoop]
  | cons c cs => simp [parseSimpleLoop, h1]

theorem isHeaderLine_plus (l : Str) :
    isHeaderLine ('+' :: l) = hasPre "++ ".toList l := by
  have e1 : hasPre "diff --git".toList ('+' :: l) = false := rfl
  have e2 : hasPre "index ".toList ('+' :: l) = false := rfl
  have e3 : hasPre "--- ".toList ('+' :: l) = false := rfl
  have e4 : hasPre "+++ ".toList ('+' :: l) = hasPre "++ ".toList l := rfl
  have e5 : hasPre "new file mode".toList ('+' :: l) = false := rfl
  have e6 : hasPre "deleted file mode".toList ('+' :: l) = false := rfl
  have e7 : hasPre "rename from".toList ('+' :: l) = false := rfl
  have e8 : hasPre "rename to".toList ('+' :: l) = false := rfl
  unfold isHeaderLine
  rw [e1, e2, e3, e4, e5, e6, e7, e8]
  simp

theorem isHeaderLine_minus (l : Str) :
    isHeaderLine ('-' :: l) = hasPre "-- ".toList l := by
  have e1 : hasPre "diff --git".toList ('-' :: l) = false := rfl
  have e2 : hasPre "index ".toList ('-' :: l) = false := rfl
  have e3 : hasPre "--- ".toList ('-' :: l) = hasPre "-- ".toList l := rfl
  have e4 : hasPre "+++ ".toList ('-' :: l) = false := rfl
  have e5 : hasPre "new file mode".toList ('-' :: l) = false := rfl
  have e6 : hasPre "deleted file mode".toList ('-' :: l) = false := rfl
  have e7 : hasPre "rename from".toList ('-' :: l) = false := rfl
  have e8 : hasPre "rename to".toList ('-' :: l) = false := rfl
  unfold isHeaderLine
  rw [e1, e2, e3, e4, e5, e6, e7, e8]
  simp

theorem hasPre_plusB_false (l : Str) (h : hasPre "++ ".toList l = false) :
    hasPre "++ b/".toList l = false := by
  cases hb : hasPre "++ b/".toList l
  · rfl
  · have he : hasPre ("++ ".toList ++ "b/".toList) l = true := by
      have he2 : "++ ".toList ++ "b/".toList = "++ b/".toList := by decide
      rw [he2]
      exact hb
    have h2 := hasPre_split "++ ".toList "b/".toList l he
    rw [h] at h2
    exact Bool.noConfusion h2

theorem hasPre_minusA_false (l : Str) (h : hasPre "-- ".toList l = false) :
    hasPre "-- a/".toList l = false := by
  cases hb : hasPre "-- a/".toList l
  · rfl
  · have he : hasPre ("-- ".toList ++ "a/".toList) l = true := by
      have he2 : "-- ".toList ++ "a/".toList = "-- a/".toList := by decide
      rw [he2]
      exact hb
    have h2 := hasPre_split "-- ".toList "a/".toList l he
    rw [h] at h2
    exact Bool.noConfusion h2

theorem psl_plus (l : Str) (rest : List Str)
    (h : hasPre "++ ".toList l = false) :
    parseSimpleLoop (('+' :: l) :: rest) true =
      ((⟨"add".toList, l⟩ : LineChange) :: (parseSimpleLoop rest true).1,
       (parseSimpleLoop rest true).2) := by
  have hh := isHeaderLine_plus l
  rw [h] at hh
  have hb := hasPre_plusB_false l h
  simp only [parseSimpleLoop]
  rw [hh, hb]
  simp

theorem psl_minus (l : Str) (rest : List Str)
    (h : hasPre "-- ".toList l = false) :
    parseSimpleLoop (('-' :: l) :: rest) true =
      ((parseSimpleLoop rest true).1,
       (⟨"delete".toList, l⟩ : LineChange) :: (parseSimpleLoop rest true).2) := by
  have hh := isHeaderLine_minus l
  rw [h] at hh
  have hb := hasPre_minusA_false l h
  simp only [parseSimpleLoop]
  rw [hh, hb]
  simp

theorem filterMap_if_eq_map {α : Type} (f : Str → α) (ls : List Str)
    (h : ∀ l ∈ ls, l ≠ []) :
    ls.filterMap (fun l => if l = [] then none else some (f l)) = ls.map f := by
  induction ls with
  | nil => rfl
  | cons x xs ih =>
    have hx : x ≠ [] := h x (List.mem_cons_self x xs)
    have hxs : ∀ l ∈ xs, l ≠ [] := fun l hl => h l (List.mem_cons_of_mem x hl)
    simp [List.filterMap_cons, hx, ih hxs]

theorem psl_run_adds (ls : List Str) (rest : List Str)
    (h : ∀ l ∈ ls, hasPre "++ ".toList l = false) :
    parseSimpleLoop (ls.map (fun l => '+' :: l) ++ rest) true =
      (ls.map (fun l => (⟨"add".toList, l⟩ : LineChange)) ++
         (parseSimpleLoop rest true).1,
       (parseSimpleLoop rest true).2) := by
  induction ls with
  | nil => simp
  | cons x xs ih =>
    have hx := h x (List.mem_cons_self x xs)
    have hxs : ∀ l ∈ xs, hasPre "++ ".toList l = false :=
      fun l hl => h l (List.mem_cons_of_mem x hl)
    simp only [List.map_cons, List.cons_append]
    rw [psl_plus x (xs.map (fun l => '+' :: l) ++ rest) hx, ih hxs]

theorem psl_run_dels (ls : List Str) (rest : List Str)
    (h : ∀ l ∈ ls, hasPre "-- ".toList l = false) :
    parseSimpleLoop (ls.map (fun l => '-' :: l) ++ rest) true =
      ((parseSimpleLoop rest true).1,
       ls.map (fun l => (⟨"delete".toList, l⟩ : LineChange)) ++
         (parseSimpleLoop rest true).2) := by
  induction ls with
  | nil => simp
  | cons x xs ih =>
    have hx := h x (List.mem_cons_self x xs)
    have hxs : ∀ l ∈ xs, hasPre "-- ".toList l = false :=
      fun l hl => h l (List.mem_cons_of_mem x hl)
    simp only [List.map_cons, List.cons_append]
    rw [psl_minus x (xs.map (fun l => '-' :: l) ++ rest) hx, ih hxs]

theorem psl_run_chunks (chunks : List Chunk) (rest : List Str)
    (hadd : ∀ c ∈ chunks, c.type = ChunkType.add →
      ∀ l ∈ chunkLines c.content, l ≠ [] ∧ hasPre "++ ".toList l = false)
    (hdel : ∀ c ∈ chunks, c.type = ChunkType.delete →
      ∀ l ∈ chunkLines c.content, l ≠ [] ∧ hasPre "-- ".toList l = false) :
    parseSimpleLoop ((chunks.map emitChunk).flatten ++ rest) true =
      ((addLineGroups chunks).flatten.map
          (fun l => (⟨"add".toList, l⟩ : LineChange)) ++
         (parseSimpleLoop rest true).1,
       (delLineGroups chunks).flatten.map
          (fun l => (⟨"delete".toList, l⟩ : LineChange)) ++
         (parseSimpleLoop rest true).2) := by
  induction chunks with
  | nil => simp [addLineGroups, delLineGroups]
  | cons c cs ih =>
    obtain ⟨ty, content⟩ := c
    have haddc := hadd ⟨ty, content⟩ (List.mem_cons_self _ _)
    have hdelc := hdel ⟨ty, content⟩ (List.mem_cons_self _ _)
    have haddcs : ∀ x ∈ cs, x.type = ChunkType.add →
        ∀ l ∈ chunkLines x.content, l ≠ [] ∧ hasPre "++ ".toList l = false :=
      fun x hx => hadd x (List.mem_cons_of_mem _ hx)
    have hdelcs : ∀ x ∈ cs, x.type = ChunkType.delete →
        ∀ l ∈ chunkLines x.content, l ≠ [] ∧ hasPre "-- ".toList l = false :=
      fun x hx => hdel x (List.mem_cons_of_mem _ hx)
    cases ty with
    | add =>
      have hne : ∀ l ∈ chunkLines content, l ≠ [] :=
        fun l hl => (haddc rfl l hl).1
      have hpre : ∀ l ∈ chunkLines content, hasPre "++ ".toList l = false :=
        fun l hl => (haddc rfl l hl).2
      simp only [List.map_cons, List.flatten_cons, emitChunk]
      rw [filterMap_if_eq_map _ _ hne, List.append_assoc,
        psl_run_adds _ _ hpre, ih haddcs hdelcs]
      simp [addLineGroups, delLineGroups, List.filterMap_cons]
    | delete =>
      have hne : ∀ l ∈ chunkLines content, l ≠ [] :=
        fun l hl => (hdelc rfl l hl).1
      have hpre : ∀ l ∈ chunkLines content, hasPre "-- ".toList l = false :=
        fun l hl => (hdelc rfl l hl).2
      simp only [List.map_cons, List.flatten_cons, emitChunk]
      rw [filterMap_if_eq_map _ _ hne, List.append_assoc,
        psl_run_dels _ _ hpre, ih haddcs hdelcs]
      simp [addLineGroups, delLineGroups, List.filterMap_cons]
    | equal =>
      simp only [List.map_cons, List.flatten_cons, emitChunk, List.nil_append]
      rw [ih haddcs hdelcs]
      simp [addLineGroups, delLineGroups, List.filterMap_cons]

/-! Header lines of the synthesized diff text. -/

theorem isHeaderLine_of_diffGit (l : Str)
    (h : hasPre "diff --git".toList l = true) : isHeaderLine l = true := by
  unfold isHeaderLine
  rw [h]
  simp

theorem isHeader_diffGit (p q : Str) :
    isHeaderLine ("diff --git a/".toList ++ p ++ " b/".toList ++ q) = true := by
  apply isHeaderLine_of_diffGit
  exact hasPre_of_left _ _ _ (hasPre_of_left _ _ _ (hasPre_of_left _ _ _ (by decide)))

theorem isHeader_plusB (t : Str) :
    isHeaderLine ("+++ b/".toList ++ t) = true := by
  have h : hasPre "+++ ".toList ("+++ b/".toList ++ t) = true :=
    hasPre_of_left _ _ _ (by decide)
  unfold isHeaderLine
  rw [h]
  simp

theorem isHeader_minusA (f : Str) :
    isHeaderLine ("--- a/".toList ++ f) = true := by
  have h : hasPre "--- ".toList ("--- a/".toList ++ f) = true :=
    hasPre_of_left _ _ _ (by decide)
  unfold isHeaderLine
  rw [h]
  simp

theorem isHeader_renameFrom (f : Str) :
    isHeaderLine ("rename from ".toList ++ f) = true := by
  have h : hasPre "rename from".toList ("rename from ".toList ++ f) = true :=
    hasPre_of_left _ _ _ (by decide)
  unfold isHeaderLine
  rw [h]
  simp

theorem isHeader_renameTo (t : Str) :
    isHeaderLine ("rename to ".toList ++ t) = true := by
  have h : hasPre "rename to".toList ("rename to ".toList ++ t) = true :=
    hasPre_of_left _ _ _ (by decide)
  unfold isHeaderLine
  rw [h]
  simp

theorem psl_line_diffGit (p q : Str) (rest : List Str) (sk : Bool) :
    parseSimpleLoop (("diff --git a/".toList ++ p ++ " b/".toList ++ q) :: rest) sk =
      parseSimpleLoop rest true :=
  psl_header_line _ _ _ (isHeader_diffGit p q) rfl

theorem psl_line_newFileMode (rest : List Str) (sk : Bool) :
    parseSimpleLoop ("new file mode 100644".toList :: rest) sk =
      parseSimpleLoop rest true :=
  psl_header_line _ _ _ (by decide) rfl

theorem psl_line_deletedFileMode (rest : List Str) (sk : Bool) :
    parseSimpleLoop ("deleted file mode 100644".toList :: rest) sk =
      parseSimpleLoop rest true :=
  psl_header_line _ _ _ (by decide) rfl

theorem psl_line_devNullMinus (rest : List Str) (sk : Bool) :
    parseSimpleLoop ("--- /dev/null".toList :: rest) sk =
      parseSimpleLoop rest true :=
  psl_header_line _ _ _ (by decide) rfl

theorem psl_line_devNullPlus (rest : List Str) (sk : Bool) :
    parseSimpleLoop ("+++ /dev/null".toList :: rest) sk =
      parseSimpleLoop rest true :=
  psl_header_line _ _ _ (by decide) rfl

theorem psl_line_plusB (t : Str) (rest : List Str) (sk : Bool) :
    parseSimpleLoop (("+++ b/".toList ++ t) :: rest) sk =
      parseSimpleLoop rest true :=
  psl_header_line _ _ _ (isHeader_plusB t) rfl

theorem psl_line_minusA (f : Str) (rest : List Str) (sk : Bool) :
    parseSimpleLoop (("--- a/".toList ++ f) :: rest) sk =
      parseSimpleLoop rest true :=
  psl_header_line _ _ _ (isHeader_minusA f) rfl

theorem psl_line_renameFrom (f : Str) (rest : List Str) (sk : Bool) :
    parseSimpleLoop (("rename from ".toList ++ f) :: rest) sk =
      parseSimpleLoop rest true :=
  psl_header_line _ _ _ (isHeader_renameFrom f) rfl

theorem psl_line_renameTo (t : Str) (rest : List Str) (sk : Bool) :
    parseSimpleLoop (("rename to ".toList ++ t) :: rest) sk =
      parseSimpleLoop rest true :=
  psl_header_line _ _ _ (isHeader_renameTo t) rfl

theorem psl_headers (ff tf : Option Str) (rest : List Str)
    (hnb : ¬(ff = none ∧ tf = none)) :
    parseSimpleLoop (headerLines ff tf ++ rest) false =
      parseSimpleLoop rest true := by
  cases ff with
  | none =>
    cases tf with
    | none => exact absurd ⟨rfl, rfl⟩ hnb
    | some t =>
      simp only [headerLines, List.cons_append, List.nil_append]
      rw [psl_line_diffGit, psl_line_newFileMode, psl_line_devNullMinus,
        psl_line_plusB]
  | some f =>
    cases tf with
    | none =>
      simp only [headerLines, List.cons_append, List.nil_append]
      rw [psl_line_diffGit, psl_line_deletedFileMode, psl_line_minusA,
        psl_line_devNullPlus]
    | some t =>
      by_cases hft : f = t
      · simp only [headerLines, if_pos hft, List.cons_append, List.nil_append]
        rw [psl_line_diffGit, psl_line_minusA, psl_line_plusB]
      · simp only [headerLines, if_neg hft, List.cons_append, List.nil_append]
        rw [psl_line_diffGit, psl_line_renameFrom, psl_line_renameTo]

/-! Facts about the synthesized lines, for claim C1. -/

theorem chunkLines_subset (content : Str) :
    ∀ l ∈ chunkLines content, l ∈ splitOnNl content := by
  intro l hl
  simp only [chunkLines] at hl
  split at hl
  · exact List.mem_of_mem_dropLast hl
  · exact hl

theorem chunkLines_no_nl (content : Str) :
    ∀ l ∈ chunkLines content, '\n' ∉ l := fun l hl =>
  not_mem_of_mem_splitOnCh '\n' content l (chunkLines_subset content l hl)

theorem no_nl_append (a b : Str) (ha : '\n' ∉ a) (hb : '\n' ∉ b) :
    '\n' ∉ a ++ b := by
  intro hm
  rcases List.mem_append.mp hm with h | h
  · exact ha h
  · exact hb h

theorem headerLines_no_nl (ff tf : Option Str)
    (hf : ∀ p ∈ ff.toList, '\n' ∉ p) (ht : ∀ p ∈ tf.toList, '\n' ∉ p) :
    ∀ l ∈ headerLines ff tf, '\n' ∉ l := by
  cases ff with
  | none =>
    cases tf with
    | none => intro l hl; simp [headerLines] at hl
    | some t =>
      have hnt : '\n' ∉ t := ht t (by simp)
      intro l hl
      simp only [headerLines, List.mem_cons, List.not_mem_nil, or_false] at hl
      rcases hl with h | h | h | h <;> subst h
      · exact no_nl_append _ _ (no_nl_append _ _
          (no_nl_append _ _ (by decide) hnt) (by decide)) hnt
      · decide
      · decide
      · exact no_nl_append _ _ (by decide) hnt
  | some f =>
    have hnf : '\n' ∉ f := hf f (by simp)
    cases tf with
    | none =>
      intro l hl
      simp only [headerLines, List.mem_cons, List.not_mem_nil, or_false] at hl
      rcases hl with h | h | h | h <;> subst h
      · exact no_nl_append _ _ (no_nl_append _ _
          (no_nl_append _ _ (by decide) hnf) (by decide)) hnf
      · decide
      · exact no_nl_append _ _ (by decide) hnf
      · decide
    | some t =>
      have hnt : '\n' ∉ t := ht t (by simp)
      intro l hl
      by_cases hft : f = t
      · simp only [headerLines, if_pos hft, List.mem_cons, List.not_mem_nil,
          or_false] at hl
        rcases hl with h | h | h <;> subst h
        · exact no_nl_append _ _ (no_nl_append _ _
            (no_nl_append _ _ (by decide) hnf) (by decide)) hnt
        · exact no_nl_append _ _ (by decide) hnf
        · exact no_nl_append _ _ (by decide) hnt
      · simp only [headerLines, if_neg hft, List.mem_cons, List.not_mem_nil,
          or_false] at hl
        rcases hl with h | h | h <;> subst h
        · exact no_nl_append _ _ (no_nl_append _ _
            (no_nl_append _ _ (by decide) hnf) (by decide)) hnt
        · exact no_nl_append _ _ (by decide) hnf
        · exact no_nl_append _ _ (by decide) hnt

theorem emitChunk_shape (c : Chunk) :
    ∀ l ∈ emitChunk c, ∃ x ∈ chunkLines c.content,
      l = '+' :: x ∨ l = '-' :: x := by
  intro l hl
  obtain ⟨ty, content⟩ := c
  cases ty <;> simp only [emitChunk] at hl
  · rcases List.mem_filterMap.mp hl with ⟨x, hx, hfx⟩
    by_cases hxe : x = []
    · simp [hxe] at hfx
    · rw [if_neg hxe] at hfx
      exact ⟨x, hx, Or.inl (Option.some.injEq .. |>.mp hfx).symm⟩
  · rcases List.mem_filterMap.mp hl with ⟨x, hx, hfx⟩
    by_cases hxe : x = []
    · simp [hxe] at hfx
    · rw [if_neg hxe] at hfx
      exact ⟨x, hx, Or.inr (Option.some.injEq .. |>.mp hfx).symm⟩
  · simp at hl

theorem synthLines_no_nl (fp : FilePatch)
    (hf : ∀ p ∈ fp.fromFile.toList, '\n' ∉ p)
    (ht : ∀ p ∈ fp.toFile.toList, '\n' ∉ p) :
    ∀ l ∈ synthLines fp, '\n' ∉ l := by
  intro l hl
  simp only [synthLines] at hl
  rcases List.mem_append.mp hl with hl | hl
  · exact headerLines_no_nl fp.fromFile fp.toFile hf ht l hl
  · rcases List.mem_flatten.mp hl with ⟨ls, hls, hmem⟩
    rcases List.mem_map.mp hls with ⟨c, -, hc⟩
    subst hc
    rcases emitChunk_shape c l hmem with ⟨x, hx, hor⟩
    have hnx : '\n' ∉ x := chunkLines_no_nl c.content x hx
    rcases hor with h | h <;> subst h <;> intro hm <;>
      rcases List.mem_cons.mp hm with h2 | h2
    · exact absurd h2 (by decide)
    · exact hnx h2
    · exact absurd h2 (by decide)
    · exact hnx h2

theorem headerLines_no_hunk (ff tf : Option Str) :
    ∀ l ∈ headerLines ff tf, hasPre "@@".toList l = false := by
  cases ff with
  | none =>
    cases tf with
    | none => intro l hl; simp [headerLines] at hl
    | some t =>
      intro l hl
      simp only [headerLines, List.mem_cons, List.not_mem_nil, or_false] at hl
      rcases hl with h | h | h | h <;> subst h <;> rfl
  | some f =>
    cases tf with
    | none =>
      intro l hl
      simp only [headerLines, List.mem_cons, List.not_mem_nil, or_false] at hl
      rcases hl with h | h | h | h <;> subst h <;> rfl
    | some t =>
      intro l hl
      by_cases hft : f = t
      · simp only [headerLines, if_pos hft, List.mem_cons, List.not_mem_nil,
          or_false] at hl
        rcases hl with h | h | h <;> subst h <;> rfl
      · simp only [headerLines, if_neg hft, List.mem_cons, List.not_mem_nil,
          or_false] at hl
        rcases hl with h | h | h <;> subst h <;> rfl

theorem synthLines_no_hunk (fp : FilePatch) :
    ∀ l ∈ synthLines fp ++ [[]], hasPre "@@".toList l = false := by
  intro l hl
  rcases List.mem_append.mp hl with hl | hl
  · simp only [synthLines] at hl
    rcases List.mem_append.mp hl with hl | hl
    · exact headerLines_no_hunk fp.fromFile fp.toFile l hl
    · rcases List.mem_flatten.mp hl with ⟨ls, hls, hmem⟩
      rcases List.mem_map.mp hls with ⟨c, -, hc⟩
      subst hc
      rcases emitChunk_shape c l hmem with ⟨x, -, hor⟩
      rcases hor with h | h <;> subst h <;> rfl
  · have he : l = [] := by simpa using hl
    subst he
    rfl

theorem headerLines_length (ff tf : Option Str)
    (hnb : ¬(ff = none ∧ tf = none)) :
    3 ≤ (headerLines ff tf).length := by
  cases ff <;> cases tf
  · exact absurd ⟨rfl, rfl⟩ hnb
  · simp [headerLines]
  · simp [headerLines]
  · rename_i f t
    by_cases hft : f = t <;> simp [headerLines, hft]

theorem joinNl_cons (l : Str) (ls : List Str) :
    joinNl (l :: ls) = l ++ '\n' :: joinNl ls := by
  simp [joinNl, List.append_assoc]

theorem synthDiffText_ne_nil (fp : FilePatch)
    (hnb : ¬(fp.fromFile = none ∧ fp.toFile = none)) :
    synthDiffText fp ≠ [] := by
  have h3 := headerLines_length fp.fromFile fp.toFile hnb
  cases hh : headerLines fp.fromFile fp.toFile with
  | nil => rw [hh] at h3; simp at h3
  | cons a hrest =>
    unfold synthDiffText synthLines
    rw [hh, List.cons_append, joinNl_cons]
    simp

theorem parse_synth (fp : FilePatch)
    (hnb : ¬(fp.fromFile = none ∧ fp.toFile = none))
    (hf : ∀ p ∈ fp.fromFile.toList, '\n' ∉ p)
    (ht : ∀ p ∈ fp.toFile.toList, '\n' ∉ p) :
    parseDiffContent (synthDiffText fp) =
      parseSimpleLoop (synthLines fp ++ [[]]) false := by
  have hnl : ∀ l ∈ synthLines fp, '\n' ∉ l := synthLines_no_nl fp hf ht
  have hsplit : splitOnNl (synthDiffText fp) = synthLines fp ++ [[]] :=
    splitOnNl_joinNl _ hnl
  have hne := synthDiffText_ne_nil fp hnb
  have hlen : ¬(synthLines fp ++ [[]]).length < 3 := by
    have h3 := headerLines_length fp.fromFile fp.toFile hnb
    simp only [synthLines, List.length_append]
    omega
  have hany : (synthLines fp ++ [[]]).any (fun l => hasPre "@@".toList l) = false := by
    rw [List.any_eq_false]
    intro x hx
    simp only [synthLines_no_hunk fp x hx, Bool.false_eq_true, not_false_eq_true]
  simp only [parseDiffContent, if_neg hne, hsplit, if_neg hlen, hany]
  simp

theorem map_content_mk (t : Str) (ls : List Str) :
    (ls.map (fun l => (⟨t, l⟩ : LineChange))).map LineChange.content = ls := by
  induction ls with
  | nil => rfl
  | cons x xs ih =>
    simp only [List.map_cons]
    rw [ih]

theorem foldl_chunkCountStep (chunks : List Chunk) :
    ∀ init : Nat × Nat,
      chunks.foldl chunkCountStep init =
        (init.1 + ((addLineGroups chunks).map List.length).sum,
         init.2 + ((delLineGroups chunks).map List.length).sum) := by
  induction chunks with
  | nil => intro init; simp [addLineGroups, delLineGroups]
  | cons c cs ih =>
    intro init
    obtain ⟨ty, content⟩ := c
    cases ty <;>
      simp only [List.foldl_cons, chunkCountStep, ih, addLineGroups,
        delLineGroups, List.filterMap_cons, List.map_cons, List.sum_cons] <;>
      rw [Prod.mk.injEq] <;> constructor <;> omega

/-- C1 (amended): for every file patch processed by the non-root path of
`getCommitChanges` whose paths contain no newline and whose Add and Delete
chunk line groups consist of non-empty lines not beginning with the
parser-reserved prefixes `++ ` and `-- `, parsing the synthesized diff text
with `parseDiffContent` recovers addition and deletion lists whose contents
and counts exactly match, in order, the text lines of the Add and Delete
chunk groups (the counts equal the Additions/Deletions counters of the
chunk loop). -/
theorem c1_roundtrip_amended (fp : FilePatch)
    (hnb : ¬(fp.fromFile = none ∧ fp.toFile = none))
    (hf : ∀ p ∈ fp.fromFile.toList, '\n' ∉ p)
    (ht : ∀ p ∈ fp.toFile.toList, '\n' ∉ p)
    (hadd : ∀ c ∈ fp.chunks, c.type = ChunkType.add →
      ∀ l ∈ chunkLines c.content, l ≠ [] ∧ hasPre "++ ".toList l = false)
    (hdel : ∀ c ∈ fp.chunks, c.type = ChunkType.delete →
      ∀ l ∈ chunkLines c.content, l ≠ [] ∧ hasPre "-- ".toList l = false) :
    (parseDiffContent (synthDiffText fp)).1.map LineChange.content =
        (addLineGroups fp.chunks).flatten ∧
    (parseDiffContent (synthDiffText fp)).2.map LineChange.content =
        (delLineGroups fp.chunks).flatten ∧
    (parseDiffContent (synthDiffText fp)).1.length = (chunkCounts fp.chunks).1 ∧
    (parseDiffContent (synthDiffText fp)).2.length = (chunkCounts fp.chunks).2 := by
  have hps := parse_synth fp hnb hf ht
  have hassoc : synthLines fp ++ [[]] =
      headerLines fp.fromFile fp.toFile ++
        ((fp.chunks.map emitChunk).flatten ++ [[]]) := by
    simp [synthLines, List.append_assoc]
  have hhead := psl_headers fp.fromFile fp.toFile
    ((fp.chunks.map emitChunk).flatten ++ [[]]) hnb
  have hchunks := psl_run_chunks fp.chunks [[]] hadd hdel
  have hend : parseSimpleLoop [[]] true = ([], []) := rfl
  rw [hend] at hchunks
  simp only [List.append_nil] at hchunks
  rw [hps, hassoc, hhead, hchunks]
  have hcnt := foldl_chunkCountStep fp.chunks (0, 0)
  refine ⟨?_, ?_, ?_, ?_⟩
  · rw [map_content_mk]
  · rw [map_content_mk]
  · rw [List.length_map, List.length_flatten]
    simp only [chunkCounts, hcnt]
    omega
  · rw [List.length_map, List.length_flatten]
    simp only [chunkCounts, hcnt]
    omega

/-- File patch used by the C1 counterexample: a modification whose single
Add chunk consists of one empty line (content `"\n"`). -/
def c1CexPatch : FilePatch :=
  { fromFile := some "p".toList, toFile := some "p".toList,
    chunks := [⟨ChunkType.add, "\n".toList⟩], fileSize := none }

/-- Counterexample for C1 as stated: the Add chunk group of `c1CexPatch`
has one line (the empty line), counted by the Additions counter, but the
synthesizer emits no text for it, so parsing the synthesized diff recovers
zero additions: the round trip is not the identity on the line groups. -/
theorem c1_roundtrip_cex :
    (parseDiffContent (synthDiffText c1CexPatch)).1.length = 0 ∧
    (addLineGroups c1CexPatch.chunks).flatten.length = 1 ∧
    (chunkCounts c1CexPatch.chunks).1 = 1 ∧
    ¬((parseDiffContent (synthDiffText c1CexPatch)).1.map LineChange.content =
        (addLineGroups c1CexPatch.chunks).flatten) := by
  decide

/-- File patch used by the C1 witness: a modification replacing one line. -/
def c1wPatch : FilePatch :=
  { fromFile := some "config.yaml".toList, toFile := some "config.yaml".toList,
    chunks := [⟨ChunkType.delete, "severity: critical".toList⟩,
               ⟨ChunkType.add, "severity: high".toList⟩],
    fileSize := some 18 }

/-- Witness for the amended C1 at a concrete one-line modification. -/
theorem c1_roundtrip_amended_witness :
    (¬(c1wPatch.fromFile = none ∧ c1wPatch.toFile = none)) ∧
    ((parseDiffContent (synthDiffText c1wPatch)).1.map LineChange.content =
        (addLineGroups c1wPatch.chunks).flatten ∧
      (parseDiffContent (synthDiffText c1wPatch)).2.map LineChange.content =
        (delLineGroups c1wPatch.chunks).flatten ∧
      (parseDiffContent (synthDiffText c1wPatch)).1.length =
        (chunkCounts c1wPatch.chunks).1 ∧
      (parseDiffContent (synthDiffText c1wPatch)).2.length =
        (chunkCounts c1wPatch.chunks).2) :=
  ⟨by decide,
   c1_roundtrip_amended c1wPatch (by decide) (by decide) (by decide)
     (by decide) (by decide)⟩

/-! Lemmas for claim C7. -/

theorem psl_skip_nonheaders (pre : List Str) (rest : List Str)
    (h : ∀ l ∈ pre, isHeaderLine l = false) :
    parseSimpleLoop (pre ++ rest) false = parseSimpleLoop rest false := by
  induction pre with
  | nil => rfl
  | cons x xs ih =>
    have hx := h x (List.mem_cons_self x xs)
    have hxs : ∀ l ∈ xs, isHeaderLine l = false :=
      fun l hl => h l (List.mem_cons_of_mem x hl)
    rw [List.cons_append, psl_other_false x _ hx, ih hxs]

/-- C7 (amended): in headerless mode (at least three lines, none starting
with `@@`), accumulation begins only once a file-header line has been seen:
when the line list splits as `pre ++ header :: post` with no header line in
`pre`, the parse result is exactly the classification loop run over `post`
with accumulation enabled, so the lines of `pre` are never collected (the
claim as stated, which expects `+`/`-` lines preceding any header line to
be collected, is false). -/
theorem c7_headerless_amended (s : Str) (pre post : List Str) (hline : Str)
    (hsplit : splitOnNl s = pre ++ hline :: post)
    (hlen : ¬(pre ++ hline :: post).length < 3)
    (hnohunk : ∀ l ∈ pre ++ hline :: post, hasPre "@@".toList l = false)
    (hpre : ∀ l ∈ pre, isHeaderLine l = false)
    (hh : isHeaderLine hline = true) (hhne : hline.isEmpty = false) :
    parseDiffContent s = parseSimpleLoop post true := by
  have hne : s ≠ [] := by
    intro he
    rw [he] at hsplit
    have h1 : (pre ++ hline :: post).length = 1 := by
      rw [← hsplit]
      rfl
    omega
  have hany : (pre ++ hline :: post).any (fun l => hasPre "@@".toList l) = false := by
    rw [List.any_eq_false]
    intro x hx
    simp only [hnohunk x hx, Bool.false_eq_true, not_false_eq_true]
  simp only [parseDiffContent, if_neg hne, hsplit, if_neg hlen, hany]
  simp only [Bool.false_eq_true, if_false]
  rw [psl_skip_nonheaders pre _ hpre, psl_header_line _ _ _ hh hhne]

/-- Counterexample for C7 as stated: an input of three lines, none starting
with `@@` and each starting with `+` or `-`, on which `parseDiffContent`
collects nothing, because no file-header line precedes them. -/
theorem c7_headerless_cex :
    parseDiffContent "+a\n+b\n-c".toList = ([], []) ∧
    (splitOnNl "+a\n+b\n-c".toList).length = 3 ∧
    (splitOnNl "+a\n+b\n-c".toList).any (fun l => hasPre "@@".toList l) = false ∧
    (splitOnNl "+a\n+b\n-c".toList).all
      (fun l => hasPre "+".toList l || hasPre "-".toList l) = true := by
  decide

/-- Witness for the amended C7: a header line followed by change lines. -/
theorem c7_headerless_amended_witness :
    splitOnNl "--- a/x\n+a\n-b".toList =
      [] ++ "--- a/x".toList :: ["+a".toList, "-b".toList] ∧
    parseDiffContent "--- a/x\n+a\n-b".toList =
      parseSimpleLoop ["+a".toList, "-b".toList] true :=
  ⟨by decide,
   c7_headerless_amended "--- a/x\n+a\n-b".toList []
     ["+a".toList, "-b".toList] "--- a/x".toList (by decide) (by decide)
     (by decide) (by decide) (by decide) (by decide)⟩

end Warmy
